import Mathlib

/-!
A shallow embedding of the persistence layer of CrewAI Studio
(`app/db_utils.py`, built on `app/core/database.py`), together with the
theorems that settle the specification claims about it.

Modelling conventions:

* The SQLite `entities` table (created by `initialize_db` with
  `id TEXT PRIMARY KEY, entity_type TEXT, data TEXT`) is modelled as a list
  of rows in storage order; the PRIMARY KEY constraint means a well-formed
  store (`WF`) has pairwise-distinct ids.
* Values that travel through the Python stdlib functions
  `json.dumps` / `json.loads` (code outside this repository) are modelled by
  the inductive type `JValue`; the stdlib round-trip is modelled as the
  identity, so the `data` column holds the `JValue` itself.  Python `None`
  is modelled as `JValue.null`.
* Python dictionaries are modelled as association lists where the *last*
  binding of a key wins (`dictGet`), matching dict-comprehension and JSON
  object semantics.
* Python string comparison (used by `sorted(..., key=lambda x: x.created_at)`)
  is lexicographic on code points; it is modelled by `charListLe` on the
  character list.
* A Python function that can raise (missing dict key, wrong shape of the
  stored JSON) is modelled as returning an `Option`, `none` standing for a
  raised exception.
* `initialize_db` acts on `Option DB`: `none` models a database file whose
  `entities` table does not exist yet, and `CREATE TABLE IF NOT EXISTS`
  creates it empty in that case and is a no-op otherwise.
-/

namespace CrewAI

/-- JSON values, as produced by `json.loads`.  Numbers are modelled as
integers (the persisted ids and timestamps in this code base are strings;
no claim depends on float arithmetic). -/
inductive JValue where
  | null
  | bool (b : Bool)
  | num (n : Int)
  | str (s : String)
  | arr (elems : List JValue)
  | obj (fields : List (String × JValue))

/-- One row of the `entities` table: `id TEXT PRIMARY KEY, entity_type TEXT,
data TEXT`; the `data` column holds the JSON blob, modelled as the parsed
value (see the module docstring). -/
structure Row where
  id : String
  entity_type : String
  data : JValue

/-- The `entities` table in storage order. -/
abbrev DB := List Row

/-- Python dictionary lookup on an association list where the last binding
of a key wins (later bindings overwrite earlier ones, as in a dict built
from a sequence of insertions). -/
def dictGet {α : Type} (pairs : List (String × α)) (key : String) : Option α :=
  match pairs with
  | [] => none
  | (k, v) :: rest =>
    match dictGet rest key with
    | some w => some w
    | none => if k = key then some v else none

/-- Python dictionary lookup with a default, modelling `d.get(k, default)`
and `d.pop(k, default)` (the pop is only used for its value in the source). -/
def dictGetD {α : Type} (pairs : List (String × α)) (key : String) (dflt : α) : α :=
  (dictGet pairs key).getD dflt

/-- Lookup of a key in a JSON object, as the decoded dict would answer it;
fails on a non-object. -/
def JValue.getKey (j : JValue) (key : String) : Option JValue :=
  match j with
  | .obj fields => dictGet fields key
  | _ => none

/-- Python lexicographic comparison of strings as lists of code points:
`s1 <= s2` holds when `s1` is a prefix of `s2` or the first differing
character of `s1` is smaller. -/
def charListLe : List Char → List Char → Bool
  | [], _ => true
  | _ :: _, [] => false
  | a :: as, b :: bs => if a = b then charListLe as bs else decide (a < b)

/-- Python string comparison `s1 <= s2`. -/
def strLe (a b : String) : Bool := charListLe a.data b.data

/-- Embedding of `db_utils.initialize_db`: `CREATE TABLE IF NOT EXISTS
entities (id TEXT PRIMARY KEY, entity_type TEXT, data TEXT)`.  The state is
`none` when the table does not exist yet; creating it yields the empty
table, and an existing table is left untouched. -/
def initialize_db : Option DB → Option DB
  | none => some []
  | some db => some db

/-- Embedding of `db_utils.save_entity`: `INSERT INTO entities ... ON
CONFLICT(id) DO UPDATE SET entity_type = EXCLUDED.entity_type, data =
EXCLUDED.data`.  The conflict target is the primary key `id` alone: when a
row with this id exists it is updated in place (whatever its stored
`entity_type`), otherwise a fresh row is appended. -/
def save_entity (entity_type : String) (entity_id : String) (data : JValue)
    (db : DB) : DB :=
  if db.any (fun r => r.id == entity_id) then
    db.map (fun r =>
      if r.id == entity_id then
        { r with entity_type := entity_type, data := data }
      else r)
  else
    db ++ [{ id := entity_id, entity_type := entity_type, data := data }]

/-- Embedding of `db_utils.load_entities`: `SELECT id, data FROM entities
WHERE entity_type = :etype`, each data blob passed through `json.loads`. -/
def load_entities (entity_type : String) (db : DB) : List (String × JValue) :=
  (db.filter (fun r => r.entity_type == entity_type)).map (fun r => (r.id, r.data))

/-- Embedding of `db_utils.delete_entity`: `DELETE FROM entities WHERE id =
:id AND entity_type = :etype`. -/
def delete_entity (entity_type : String) (entity_id : String) (db : DB) : DB :=
  db.filter (fun r => !(r.id == entity_id && r.entity_type == entity_type))

/-- One element of the JSON document written by `export_to_json`: a dict
with the row's id, entity_type and parsed data. -/
structure ExportedEntity where
  id : String
  entity_type : String
  data : JValue

/-- Embedding of `db_utils.export_to_json`: `SELECT * FROM entities`, each
row emitted as `{"id": ..., "entity_type": ..., "data": json.loads(...)}`
into the file, in table order. -/
def export_to_json (db : DB) : List ExportedEntity :=
  db.map (fun r => { id := r.id, entity_type := r.entity_type, data := r.data })

/-- Embedding of `db_utils.import_from_json`: for each entity of the file,
run the same `INSERT ... ON CONFLICT(id) DO UPDATE` upsert that
`save_entity` uses (the SQL text in the source is identical), in file
order. -/
def import_from_json (entities : List ExportedEntity) (db : DB) : DB :=
  entities.foldl (fun acc e => save_entity e.entity_type e.id e.data acc) db

/-- Well-formedness enforced by `id TEXT PRIMARY KEY`: ids are pairwise
distinct. -/
def WF (db : DB) : Prop := (db.map Row.id).Nodup

/-- Modelled from the spec: `my_tools.py` is not under `src/`.  A tool is a
persisted domain object identified by `tool_id`; `db_utils.save_tool` also
persists its name, description and parameters, which the claims never
inspect, so they are kept as raw JSON values. -/
structure MyTool where
  tool_id : String
  name : JValue
  description : JValue
  parameters : JValue

/-- Modelled from the spec: `my_agent.py` is not under `src/`.  An agent is
a record of exactly the fields that `db_utils.save_agent` persists and
`db_utils.load_agents` restores; its constructor binds the given fields.
Fields the claims never inspect are raw JSON values; `created_at` is the
ISO timestamp string used as the sort key. -/
structure MyAgent where
  id : String
  created_at : String
  role : JValue
  backstory : JValue
  goal : JValue
  allow_delegation : JValue
  verbose : JValue
  cache : JValue
  llm_provider_model : JValue
  temperature : JValue
  max_iter : JValue
  tools : List MyTool
  knowledge_source_ids : JValue

/-- Modelled from the spec: `my_task.py` is not under `src/`.  A task is a
record of exactly the fields that `db_utils.save_task` persists and
`db_utils.load_tasks` restores; `agent` is the resolved reference. -/
structure MyTask where
  id : String
  description : JValue
  expected_output : JValue
  async_execution : JValue
  agent : Option MyAgent
  context_from_async_tasks_ids : JValue
  context_from_sync_tasks_ids : JValue
  created_at : String

/-- Modelled from the spec: `my_crew.py` is not under `src/`.  A crew is a
record of exactly the fields that `db_utils.save_crew` persists and
`db_utils.load_crews` restores; `agents`, `tasks` and `manager_agent` are
the resolved references. -/
structure MyCrew where
  id : String
  name : JValue
  process : JValue
  verbose : JValue
  agents : List MyAgent
  tasks : List MyTask
  memory : JValue
  cache : JValue
  planning : JValue
  planning_llm : JValue
  max_rpm : JValue
  manager_llm : JValue
  manager_agent : Option MyAgent
  created_at : String
  knowledge_source_ids : JValue

/-- Modelled from the spec: `my_knowledge_source.py` is not under `src/`.
A knowledge source is a record of exactly the fields that
`db_utils.save_knowledge_source` persists and
`db_utils.load_knowledge_sources` restores. -/
structure MyKnowledgeSource where
  id : String
  name : JValue
  source_type : JValue
  source_path : JValue
  content : JValue
  metadata : JValue
  chunk_size : JValue
  chunk_overlap : JValue
  created_at : String

/-- Modelled from the spec: `result.py` is not under `src/`.  A result is a
record of exactly the fields that `db_utils.save_result` persists and
`db_utils.load_results` restores. -/
structure Result where
  id : String
  crew_id : JValue
  crew_name : JValue
  inputs : JValue
  result : JValue
  created_at : String

/-- The dict `{tool.tool_id: tool for tool in tools}` built by
`load_agents`. -/
def toolsDict (tools : List MyTool) : List (String × MyTool) :=
  tools.map (fun t => (t.tool_id, t))

/-- The dict `{agent.id: agent for agent in agents}` built by `load_tasks`
and `load_crews`. -/
def agentsDict (agents : List MyAgent) : List (String × MyAgent) :=
  agents.map (fun a => (a.id, a))

/-- The dict `{task.id: task for task in tasks}` built by `load_crews`. -/
def tasksDict (tasks : List MyTask) : List (String × MyTask) :=
  tasks.map (fun t => (t.id, t))

/-- The list comprehension `[m[i] for i in ids if i in m]` shared by the
three reference resolutions: each id of the stored JSON list that is a key
of the dict is replaced by the mapped object, the others are silently
dropped (a non-string JSON element is never a key of these str-keyed
dicts). -/
def resolveIds {α : Type} (m : List (String × α)) : List JValue → List α
  | [] => []
  | JValue.str s :: rest =>
    match dictGet m s with
    | some x => x :: resolveIds m rest
    | none => resolveIds m rest
  | _ :: rest => resolveIds m rest

/-- The per-row loop shared by the load functions: decode every row,
propagating a raised exception (`none`) and keeping row order. -/
def decodeRows {α : Type} (dec : String × JValue → Option α) :
    List (String × JValue) → Option (List α)
  | [] => some []
  | r :: rest =>
    match dec r with
    | none => none
    | some x =>
      match decodeRows dec rest with
      | none => none
      | some xs => some (x :: xs)

/-- Ascending comparison on the `created_at` sort key of agents, as used by
`sorted(agents, key=lambda agent: agent.created_at)`. -/
def agentLe (a b : MyAgent) : Bool := strLe a.created_at b.created_at

/-- Ascending comparison on the `created_at` sort key of tasks. -/
def taskLe (a b : MyTask) : Bool := strLe a.created_at b.created_at

/-- Ascending comparison on the `created_at` sort key of crews. -/
def crewLe (a b : MyCrew) : Bool := strLe a.created_at b.created_at

/-- Ascending comparison on the `created_at` sort key of knowledge
sources. -/
def ksLe (a b : MyKnowledgeSource) : Bool := strLe a.created_at b.created_at

/-- Descending comparison on the `created_at` sort key of results, as used
by `sorted(results, key=lambda result: result.created_at, reverse=True)`
(stable descending sort). -/
def resultGe (a b : Result) : Bool := strLe b.created_at a.created_at

/-- The JSON dict written by `db_utils.save_agent`, field for field. -/
def agentData (a : MyAgent) : JValue :=
  .obj
    [("created_at", .str a.created_at),
     ("role", a.role),
     ("backstory", a.backstory),
     ("goal", a.goal),
     ("allow_delegation", a.allow_delegation),
     ("verbose", a.verbose),
     ("cache", a.cache),
     ("llm_provider_model", a.llm_provider_model),
     ("temperature", a.temperature),
     ("max_iter", a.max_iter),
     ("tool_ids", .arr (a.tools.map (fun t => .str t.tool_id))),
     ("knowledge_source_ids", a.knowledge_source_ids)]

/-- Embedding of `db_utils.save_agent`. -/
def save_agent (a : MyAgent) (db : DB) : DB :=
  save_entity "agent" a.id (agentData a) db

/-- The per-row body of `db_utils.load_agents`: pop `tool_ids` and
`knowledge_source_ids` with their defaults, build the agent from the
remaining fields, and resolve the tool references through the tool dict,
silently dropping ids with no matching tool.  Decoding fails (an exception
in the source) when the blob is not an object, a constructor field is
missing, `created_at` is not a string, or `tool_ids` is not a list. -/
def decodeAgent (tool_map : List (String × MyTool)) (id : String)
    (data : JValue) : Option MyAgent := do
  let JValue.obj fields := data | none
  let some (JValue.str created_at) := dictGet fields "created_at" | none
  let some role := dictGet fields "role" | none
  let some backstory := dictGet fields "backstory" | none
  let some goal := dictGet fields "goal" | none
  let some allow_delegation := dictGet fields "allow_delegation" | none
  let some verbose := dictGet fields "verbose" | none
  let some cache := dictGet fields "cache" | none
  let some llm_provider_model := dictGet fields "llm_provider_model" | none
  let some temperature := dictGet fields "temperature" | none
  let some max_iter := dictGet fields "max_iter" | none
  let JValue.arr tool_ids := dictGetD fields "tool_ids" (JValue.arr []) | none
  let knowledge_source_ids := dictGetD fields "knowledge_source_ids" (JValue.arr [])
  pure
    { id := id, created_at := created_at, role := role, backstory := backstory,
      goal := goal, allow_delegation := allow_delegation, verbose := verbose,
      cache := cache, llm_provider_model := llm_provider_model,
      temperature := temperature, max_iter := max_iter,
      tools := resolveIds tool_map tool_ids,
      knowledge_source_ids := knowledge_source_ids }

/-- Embedding of `db_utils.load_agents` with the `tools` argument supplied
by the caller (as `load_all_entities` does): decode every row of type
`agent` and sort ascending by `created_at`. -/
def load_agents (tools : List MyTool) (db : DB) : Option (List MyAgent) :=
  match decodeRows (fun row => decodeAgent (toolsDict tools) row.1 row.2)
      (load_entities "agent" db) with
  | none => none
  | some agents => some (agents.mergeSort agentLe)

/-- The JSON dict written by `db_utils.save_task`, field for field;
`agent_id` is the referenced agent's id or JSON null. -/
def taskData (t : MyTask) : JValue :=
  .obj
    [("description", t.description),
     ("expected_output", t.expected_output),
     ("async_execution", t.async_execution),
     ("agent_id",
       match t.agent with
       | some a => .str a.id
       | none => .null),
     ("context_from_async_tasks_ids", t.context_from_async_tasks_ids),
     ("context_from_sync_tasks_ids", t.context_from_sync_tasks_ids),
     ("created_at", .str t.created_at)]

/-- Embedding of `db_utils.save_task`. -/
def save_task (t : MyTask) (db : DB) : DB :=
  save_entity "task" t.id (taskData t) db

/-- The per-row body of `db_utils.load_tasks`: pop `agent_id` (default
`None`) and resolve it with `agents_dict.get`, which yields `None` both
for a null id and for an id no loaded agent carries. -/
def decodeTask (agents_dict : List (String × MyAgent)) (id : String)
    (data : JValue) : Option MyTask := do
  let JValue.obj fields := data | none
  let some description := dictGet fields "description" | none
  let some expected_output := dictGet fields "expected_output" | none
  let some async_execution := dictGet fields "async_execution" | none
  let some context_from_async_tasks_ids :=
    dictGet fields "context_from_async_tasks_ids" | none
  let some context_from_sync_tasks_ids :=
    dictGet fields "context_from_sync_tasks_ids" | none
  let some (JValue.str created_at) := dictGet fields "created_at" | none
  let agent :=
    match dictGetD fields "agent_id" JValue.null with
    | JValue.str s => dictGet agents_dict s
    | _ => none
  pure
    { id := id, description := description, expected_output := expected_output,
      async_execution := async_execution, agent := agent,
      context_from_async_tasks_ids := context_from_async_tasks_ids,
      context_from_sync_tasks_ids := context_from_sync_tasks_ids,
      created_at := created_at }

/-- Embedding of `db_utils.load_tasks` with the `agents` argument supplied
by the caller (as `load_all_entities` does): decode every row of type
`task` and sort ascending by `created_at`. -/
def load_tasks (agents : List MyAgent) (db : DB) : Option (List MyTask) :=
  match decodeRows (fun row => decodeTask (agentsDict agents) row.1 row.2)
      (load_entities "task" db) with
  | none => none
  | some tasks => some (tasks.mergeSort taskLe)

/-- The JSON dict written by `db_utils.save_crew`, field for field. -/
def crewData (c : MyCrew) : JValue :=
  .obj
    [("name", c.name),
     ("process", c.process),
     ("verbose", c.verbose),
     ("agent_ids", .arr (c.agents.map (fun a => .str a.id))),
     ("task_ids", .arr (c.tasks.map (fun t => .str t.id))),
     ("memory", c.memory),
     ("cache", c.cache),
     ("planning", c.planning),
     ("planning_llm", c.planning_llm),
     ("max_rpm", c.max_rpm),
     ("manager_llm", c.manager_llm),
     ("manager_agent_id",
       match c.manager_agent with
       | some a => .str a.id
       | none => .null),
     ("created_at", .str c.created_at),
     ("knowledge_source_ids", c.knowledge_source_ids)]

/-- Embedding of `db_utils.save_crew`. -/
def save_crew (c : MyCrew) (db : DB) : DB :=
  save_entity "crew" c.id (crewData c) db

/-- The per-row body of `db_utils.load_crews`: the required fields are read
with `data[...]` (an exception, hence `none`, when missing), the optional
ones with `data.get(...)`; `manager_agent` is resolved with
`agents_dict.get`, and the `agent_ids` / `task_ids` lists through the
shared comprehension that drops unresolved ids. -/
def decodeCrew (agents_dict : List (String × MyAgent))
    (tasks_dict : List (String × MyTask)) (id : String)
    (data : JValue) : Option MyCrew := do
  let JValue.obj fields := data | none
  let some name := dictGet fields "name" | none
  let some process := dictGet fields "process" | none
  let some verbose := dictGet fields "verbose" | none
  let some (JValue.str created_at) := dictGet fields "created_at" | none
  let memory := dictGetD fields "memory" JValue.null
  let cache := dictGetD fields "cache" JValue.null
  let planning := dictGetD fields "planning" JValue.null
  let planning_llm := dictGetD fields "planning_llm" JValue.null
  let max_rpm := dictGetD fields "max_rpm" JValue.null
  let manager_llm := dictGetD fields "manager_llm" JValue.null
  let manager_agent :=
    match dictGetD fields "manager_agent_id" JValue.null with
    | JValue.str s => dictGet agents_dict s
    | _ => none
  let knowledge_source_ids := dictGetD fields "knowledge_source_ids" (JValue.arr [])
  let some (JValue.arr agent_ids) := dictGet fields "agent_ids" | none
  let some (JValue.arr task_ids) := dictGet fields "task_ids" | none
  pure
    { id := id, name := name, process := process, verbose := verbose,
      agents := resolveIds agents_dict agent_ids,
      tasks := resolveIds tasks_dict task_ids,
      memory := memory, cache := cache, planning := planning,
      planning_llm := planning_llm, max_rpm := max_rpm,
      manager_llm := manager_llm, manager_agent := manager_agent,
      created_at := created_at,
      knowledge_source_ids := knowledge_source_ids }

/-- Embedding of `db_utils.load_crews` with the `agents` and `tasks`
arguments supplied by the caller (as `load_all_entities` does): decode
every row of type `crew` and sort ascending by `created_at`. -/
def load_crews (agents : List MyAgent) (tasks : List MyTask) (db : DB) :
    Option (List MyCrew) :=
  match decodeRows
      (fun row => decodeCrew (agentsDict agents) (tasksDict tasks) row.1 row.2)
      (load_entities "crew" db) with
  | none => none
  | some crews => some (crews.mergeSort crewLe)

/-- The JSON dict written by `db_utils.save_knowledge_source`, field for
field. -/
def knowledgeSourceData (k : MyKnowledgeSource) : JValue :=
  .obj
    [("name", k.name),
     ("source_type", k.source_type),
     ("source_path", k.source_path),
     ("content", k.content),
     ("metadata", k.metadata),
     ("chunk_size", k.chunk_size),
     ("chunk_overlap", k.chunk_overlap),
     ("created_at", .str k.created_at)]

/-- Embedding of `db_utils.save_knowledge_source`. -/
def save_knowledge_source (k : MyKnowledgeSource) (db : DB) : DB :=
  save_entity "knowledge_source" k.id (knowledgeSourceData k) db

/-- The per-row body of `db_utils.load_knowledge_sources`: every persisted
field is a required constructor argument. -/
def decodeKnowledgeSource (id : String) (data : JValue) :
    Option MyKnowledgeSource := do
  let JValue.obj fields := data | none
  let some name := dictGet fields "name" | none
  let some source_type := dictGet fields "source_type" | none
  let some source_path := dictGet fields "source_path" | none
  let some content := dictGet fields "content" | none
  let some metadata := dictGet fields "metadata" | none
  let some chunk_size := dictGet fields "chunk_size" | none
  let some chunk_overlap := dictGet fields "chunk_overlap" | none
  let some (JValue.str created_at) := dictGet fields "created_at" | none
  pure
    { id := id, name := name, source_type := source_type,
      source_path := source_path, content := content, metadata := metadata,
      chunk_size := chunk_size, chunk_overlap := chunk_overlap,
      created_at := created_at }

/-- Embedding of `db_utils.load_knowledge_sources`: decode every row of
type `knowledge_source` and sort ascending by `created_at`. -/
def load_knowledge_sources (db : DB) : Option (List MyKnowledgeSource) :=
  match decodeRows (fun row => decodeKnowledgeSource row.1 row.2)
      (load_entities "knowledge_source" db) with
  | none => none
  | some sources => some (sources.mergeSort ksLe)

/-- The JSON dict written by `db_utils.save_result`, field for field. -/
def resultData (r : Result) : JValue :=
  .obj
    [("crew_id", r.crew_id),
     ("crew_name", r.crew_name),
     ("inputs", r.inputs),
     ("result", r.result),
     ("created_at", .str r.created_at)]

/-- Embedding of `db_utils.save_result`. -/
def save_result (r : Result) (db : DB) : DB :=
  save_entity "result" r.id (resultData r) db

/-- The per-row body of `db_utils.load_results`: every persisted field is a
required constructor argument. -/
def decodeResult (id : String) (data : JValue) : Option Result := do
  let JValue.obj fields := data | none
  let some crew_id := dictGet fields "crew_id" | none
  let some crew_name := dictGet fields "crew_name" | none
  let some inputs := dictGet fields "inputs" | none
  let some result := dictGet fields "result" | none
  let some (JValue.str created_at) := dictGet fields "created_at" | none
  pure
    { id := id, crew_id := crew_id, crew_name := crew_name,
      inputs := inputs, result := result, created_at := created_at }

/-- Embedding of `db_utils.load_results`: decode every row of type
`result` and sort descending by `created_at` (`reverse=True`). -/
def load_results (db : DB) : Option (List Result) :=
  match decodeRows (fun row => decodeResult row.1 row.2)
      (load_entities "result" db) with
  | none => none
  | some results => some (results.mergeSort resultGe)

/-! ### Sample fixtures used by the witness theorems -/

/-- A concrete tool used by witnesses. -/
def sampleTool : MyTool :=
  { tool_id := "tool1", name := JValue.str "Search",
    description := JValue.null, parameters := JValue.obj [] }

/-- A concrete agent used by witnesses. -/
def sampleAgent : MyAgent :=
  { id := "agent1", created_at := "2024-01-01T10:00:00", role := JValue.str "r",
    backstory := JValue.null, goal := JValue.null,
    allow_delegation := JValue.bool false, verbose := JValue.bool true,
    cache := JValue.bool true, llm_provider_model := JValue.null,
    temperature := JValue.num 0, max_iter := JValue.num 25,
    tools := [sampleTool], knowledge_source_ids := JValue.arr [] }

/-- A concrete task used by witnesses. -/
def sampleTask : MyTask :=
  { id := "task1", description := JValue.str "d", expected_output := JValue.null,
    async_execution := JValue.bool false, agent := some sampleAgent,
    context_from_async_tasks_ids := JValue.arr [],
    context_from_sync_tasks_ids := JValue.arr [],
    created_at := "2024-01-02T10:00:00" }

/-- A concrete crew used by witnesses. -/
def sampleCrew : MyCrew :=
  { id := "crew1", name := JValue.str "c", process := JValue.str "sequential",
    verbose := JValue.bool true, agents := [sampleAgent], tasks := [sampleTask],
    memory := JValue.null, cache := JValue.null, planning := JValue.null,
    planning_llm := JValue.null, max_rpm := JValue.null,
    manager_llm := JValue.null, manager_agent := some sampleAgent,
    created_at := "2024-01-03T10:00:00", knowledge_source_ids := JValue.arr [] }

/-! ### Helper lemmas about the string order -/

theorem charListLe_total : ∀ as bs, charListLe as bs || charListLe bs as
  | [], _ => by simp [charListLe]
  | _ :: _, [] => by simp [charListLe]
  | a :: as, b :: bs => by
    simp only [charListLe]
    by_cases hab : a = b
    · subst hab
      simpa using charListLe_total as bs
    · have hne : ¬ b = a := fun h => hab h.symm
      rcases lt_trichotomy a b with h | h | h
      · simp [hab, hne, h]
      · exact absurd h hab
      · simp [hab, hne, h, not_lt_of_gt h]

theorem charListLe_trans : ∀ as bs cs,
    charListLe as bs → charListLe bs cs → charListLe as cs
  | [], _, _ => by intro _ _; simp [charListLe]
  | _ :: _, [], _ => by intro h _; simp [charListLe] at h
  | _ :: _, _ :: _, [] => by intro _ h; simp [charListLe] at h
  | a :: as, b :: bs, c :: cs => by
    intro h1 h2
    simp only [charListLe] at h1 h2 ⊢
    by_cases hab : a = b
    · subst hab
      simp only [if_pos rfl] at h1
      by_cases hbc : a = c
      · subst hbc
        simp only [if_pos rfl] at h2 ⊢
        exact charListLe_trans as bs cs h1 h2
      · simp only [if_neg hbc] at h2 ⊢
        exact h2
    · simp only [if_neg hab, decide_eq_true_eq] at h1
      by_cases hbc : b = c
      · subst hbc
        simp only [if_neg hab, decide_eq_true_eq]
        exact h1
      · simp only [if_neg hbc, decide_eq_true_eq] at h2
        have hac : ¬ a = c := by
          intro h
          subst h
          exact absurd (lt_trans h1 h2) (lt_irrefl a)
        simp only [if_neg hac, decide_eq_true_eq]
        exact lt_trans h1 h2

theorem strLe_total (a b : String) : strLe a b || strLe b a :=
  charListLe_total _ _

theorem strLe_trans (a b c : String) : strLe a b → strLe b c → strLe a c :=
  charListLe_trans _ _ _

/-! ### Helper lemmas about the generic store operations -/

theorem mem_load_entities {t : String} {db : DB} {p : String × JValue} :
    p ∈ load_entities t db ↔ ∃ r, r ∈ db ∧ r.entity_type = t ∧ (r.id, r.data) = p := by
  simp only [load_entities, List.mem_map, List.mem_filter, beq_iff_eq]
  constructor
  · rintro ⟨r, ⟨hr, ht⟩, he⟩
    exact ⟨r, hr, ht, he⟩
  · rintro ⟨r, hr, ht, he⟩
    exact ⟨r, ⟨hr, ht⟩, he⟩

theorem save_entity_row_mem (t i : String) (d : JValue) (db : DB) :
    ({ id := i, entity_type := t, data := d } : Row) ∈ save_entity t i d db := by
  unfold save_entity
  by_cases h : db.any (fun r => r.id == i)
  · rw [if_pos h]
    rcases List.any_eq_true.mp h with ⟨r, hr, hid⟩
    have hid' : r.id = i := by simpa using hid
    refine List.mem_map.mpr ⟨r, hr, ?_⟩
    simp [hid']
  · rw [if_neg h]
    exact List.mem_append.mpr (Or.inr (List.mem_singleton.mpr rfl))

theorem mem_load_entities_save (t i : String) (d : JValue) (db : DB) :
    (i, d) ∈ load_entities t (save_entity t i d db) :=
  mem_load_entities.mpr
    ⟨{ id := i, entity_type := t, data := d }, save_entity_row_mem t i d db, rfl, rfl⟩

theorem save_entity_id_forces (t i : String) (d : JValue) (db : DB) :
    ∀ r ∈ save_entity t i d db, r.id = i → r.entity_type = t ∧ r.data = d := by
  intro r hr hid
  unfold save_entity at hr
  by_cases h : db.any (fun x => x.id == i)
  · rw [if_pos h] at hr
    rcases List.mem_map.mp hr with ⟨x, _, hx⟩
    by_cases hxi : x.id = i
    · rw [if_pos (by simpa using hxi)] at hx
      rw [← hx]
      exact ⟨rfl, rfl⟩
    · rw [if_neg (by simpa using hxi)] at hx
      rw [← hx] at hid
      exact absurd hid hxi
  · rw [if_neg h] at hr
    rcases List.mem_append.mp hr with hmem | hmem
    · have hall : ∀ x ∈ db, ¬ x.id = i := by simpa using h
      exact absurd hid (hall r hmem)
    · rw [List.mem_singleton.mp hmem]
      exact ⟨rfl, rfl⟩

theorem save_entity_idem (t i : String) (d : JValue) (db : DB) :
    save_entity t i d (save_entity t i d db) = save_entity t i d db := by
  have hmem := save_entity_row_mem t i d db
  have hany : (save_entity t i d db).any (fun r => r.id == i) = true :=
    List.any_eq_true.mpr ⟨_, hmem, by simp⟩
  conv_lhs => rw [save_entity]
  rw [if_pos hany]
  have hid : ∀ r ∈ save_entity t i d db,
      (if r.id == i then { r with entity_type := t, data := d } else r) = r := by
    intro r hr
    by_cases hri : r.id = i
    · rcases save_entity_id_forces t i d db r hr hri with ⟨ht, hd⟩
      rw [if_pos (by simpa using hri)]
      cases r
      simp only at ht hd
      rw [ht, hd]
    · rw [if_neg (by simpa using hri)]
  calc (save_entity t i d db).map
        (fun r => if r.id == i then { r with entity_type := t, data := d } else r)
      = (save_entity t i d db).map id := List.map_congr_left hid
    _ = save_entity t i d db := List.map_id _

/-! ### Helper lemmas about dict lookups and reference resolution -/

theorem dictGet_keyed_eq_some {α : Type} (f : α → String) :
    ∀ {l : List α} {k : String} {b : α},
      dictGet (l.map fun x => (f x, x)) k = some b → b ∈ l ∧ f b = k := by
  intro l
  induction l with
  | nil => intro k b h; simp [dictGet] at h
  | cons hd tl ih =>
    intro k b h
    simp only [List.map_cons, dictGet] at h
    cases hrest : dictGet (tl.map fun x => (f x, x)) k with
    | some w =>
      rw [hrest] at h
      rcases ih hrest with ⟨hm, hf⟩
      cases h
      exact ⟨List.mem_cons_of_mem _ hm, hf⟩
    | none =>
      rw [hrest] at h
      by_cases hk : f hd = k
      · rw [if_pos hk] at h
        cases h
        exact ⟨List.mem_cons_self _ _, hk⟩
      · rw [if_neg hk] at h
        cases h

theorem dictGet_keyed_eq_none {α : Type} (f : α → String) {l : List α} {k : String}
    (h : ∀ x ∈ l, f x ≠ k) : dictGet (l.map fun x => (f x, x)) k = none := by
  induction l with
  | nil => rfl
  | cons hd tl ih =>
    simp only [List.map_cons, dictGet]
    rw [ih (fun x hx => h x (List.mem_cons_of_mem _ hx))]
    rw [if_neg (h hd (List.mem_cons_self _ _))]

theorem resolveIds_map_str {α β : Type} (m : List (String × α)) (f : β → String) :
    ∀ l : List β, resolveIds m (l.map fun x => JValue.str (f x)) =
      l.filterMap (fun x => dictGet m (f x))
  | [] => rfl
  | x :: rest => by
    simp only [List.map_cons, resolveIds, List.filterMap_cons]
    cases h : dictGet m (f x) <;>
      simp [h, resolveIds_map_str m f rest]

theorem decodeRows_mem {α : Type} {dec : String × JValue → Option α} :
    ∀ {rows : List (String × JValue)} {l : List α},
      decodeRows dec rows = some l → ∀ {r}, r ∈ rows → ∃ x ∈ l, dec r = some x := by
  intro rows
  induction rows with
  | nil =>
    intro l _ r hr
    simp at hr
  | cons hd tl ih =>
    intro l h r hr
    simp only [decodeRows] at h
    cases hdec : dec hd with
    | none => rw [hdec] at h; cases h
    | some x =>
      rw [hdec] at h
      cases hrest : decodeRows dec tl with
      | none => rw [hrest] at h; cases h
      | some xs =>
        rw [hrest] at h
        cases h
        rcases List.mem_cons.mp hr with rfl | hmem
        · exact ⟨x, List.mem_cons_self _ _, hdec⟩
        · rcases ih hrest hmem with ⟨y, hy, hdy⟩
          exact ⟨y, List.mem_cons_of_mem _ hy, hdy⟩

/-! ### Helper lemmas for well-formed stores and import -/

theorem WF_id_inj {db : DB} (h : WF db) {x r : Row} (hx : x ∈ db) (hr : r ∈ db)
    (hid : x.id = r.id) : x = r :=
  List.inj_on_of_nodup_map h hx hr hid

theorem save_entity_mem_self {db : DB} (h : WF db) {r : Row} (hr : r ∈ db) :
    save_entity r.entity_type r.id r.data db = db := by
  unfold save_entity
  have hany : db.any (fun x => x.id == r.id) = true :=
    List.any_eq_true.mpr ⟨r, hr, by simp⟩
  rw [if_pos hany]
  have hfix : ∀ x ∈ db,
      (if x.id == r.id then { x with entity_type := r.entity_type, data := r.data }
       else x) = x := by
    intro x hx
    by_cases hxi : x.id = r.id
    · have hxr : x = r := WF_id_inj h hx hr hxi
      subst hxr
      simp
    · rw [if_neg (by simpa using hxi)]
  calc db.map (fun x =>
          if x.id == r.id then { x with entity_type := r.entity_type, data := r.data }
          else x)
      = db.map id := List.map_congr_left hfix
    _ = db := List.map_id _

theorem import_from_json_all_mem {db : DB} (h : WF db) :
    ∀ l : List ExportedEntity,
      (∀ e ∈ l,
        ({ id := e.id, entity_type := e.entity_type, data := e.data } : Row) ∈ db) →
      import_from_json l db = db
  | [], _ => rfl
  | e :: rest, hall => by
    have hstep : save_entity e.entity_type e.id e.data db = db :=
      save_entity_mem_self h (hall e (List.mem_cons_self _ _))
    have : import_from_json (e :: rest) db = import_from_json rest db := by
      simp only [import_from_json, List.foldl_cons]
      rw [show (save_entity e.entity_type e.id e.data db) = db from hstep]
    rw [this]
    exact import_from_json_all_mem h rest
      (fun x hx => hall x (List.mem_cons_of_mem _ hx))

/-! ### Decoding a blob written by the matching save function -/

theorem decodeAgent_agentData (tm : List (String × MyTool)) (i : String) (a : MyAgent) :
    decodeAgent tm i (agentData a) =
      some { a with
             id := i
             tools := resolveIds tm (a.tools.map fun t => JValue.str t.tool_id) } := by
  simp [decodeAgent, agentData, dictGet, dictGetD]

theorem decodeTask_taskData (am : List (String × MyAgent)) (i : String) (t : MyTask) :
    decodeTask am i (taskData t) =
      some { t with
             id := i
             agent := (match t.agent with
               | some a => dictGet am a.id
               | none => none) } := by
  cases ht : t.agent <;>
    simp [decodeTask, taskData, dictGet, dictGetD, ht]

theorem decodeCrew_crewData (am : List (String × MyAgent))
    (tm : List (String × MyTask)) (i : String) (c : MyCrew) :
    decodeCrew am tm i (crewData c) =
      some { c with
             id := i
             agents := resolveIds am (c.agents.map fun a => JValue.str a.id)
             tasks := resolveIds tm (c.tasks.map fun t => JValue.str t.id)
             manager_agent := (match c.manager_agent with
               | some a => dictGet am a.id
               | none => none) } := by
  cases hm : c.manager_agent <;>
    simp [decodeCrew, crewData, dictGet, dictGetD, hm]

theorem decodeKnowledgeSource_data (i : String) (k : MyKnowledgeSource) :
    decodeKnowledgeSource i (knowledgeSourceData k) = some { k with id := i } := by
  simp [decodeKnowledgeSource, knowledgeSourceData, dictGet]

theorem decodeResult_resultData (i : String) (r : Result) :
    decodeResult i (resultData r) = some { r with id := i } := by
  simp [decodeResult, resultData, dictGet]

theorem agentsDict_eq_some {agents : List MyAgent} {k : String} {b : MyAgent}
    (h : dictGet (agentsDict agents) k = some b) : b ∈ agents ∧ b.id = k :=
  dictGet_keyed_eq_some MyAgent.id h

theorem agentsDict_eq_none {agents : List MyAgent} {k : String}
    (h : ∀ b ∈ agents, b.id ≠ k) : dictGet (agentsDict agents) k = none :=
  dictGet_keyed_eq_none MyAgent.id h

theorem tasksDict_eq_some {tasks : List MyTask} {k : String} {b : MyTask}
    (h : dictGet (tasksDict tasks) k = some b) : b ∈ tasks ∧ b.id = k :=
  dictGet_keyed_eq_some MyTask.id h

theorem toolsDict_eq_some {tools : List MyTool} {k : String} {b : MyTool}
    (h : dictGet (toolsDict tools) k = some b) : b ∈ tools ∧ b.tool_id = k :=
  dictGet_keyed_eq_some MyTool.tool_id h

/-! ### Sortedness of the merge sorts used by the load functions -/

theorem mergeSort_sorted_agent (l : List MyAgent) :
    (l.mergeSort agentLe).Pairwise fun a b => strLe a.created_at b.created_at :=
  @List.sorted_mergeSort MyAgent agentLe
    (fun _ _ _ h1 h2 => strLe_trans _ _ _ h1 h2)
    (fun _ _ => strLe_total _ _) l

theorem mergeSort_sorted_task (l : List MyTask) :
    (l.mergeSort taskLe).Pairwise fun a b => strLe a.created_at b.created_at :=
  @List.sorted_mergeSort MyTask taskLe
    (fun _ _ _ h1 h2 => strLe_trans _ _ _ h1 h2)
    (fun _ _ => strLe_total _ _) l

theorem mergeSort_sorted_crew (l : List MyCrew) :
    (l.mergeSort crewLe).Pairwise fun a b => strLe a.created_at b.created_at :=
  @List.sorted_mergeSort MyCrew crewLe
    (fun _ _ _ h1 h2 => strLe_trans _ _ _ h1 h2)
    (fun _ _ => strLe_total _ _) l

theorem mergeSort_sorted_ks (l : List MyKnowledgeSource) :
    (l.mergeSort ksLe).Pairwise fun a b => strLe a.created_at b.created_at :=
  @List.sorted_mergeSort MyKnowledgeSource ksLe
    (fun _ _ _ h1 h2 => strLe_trans _ _ _ h1 h2)
    (fun _ _ => strLe_total _ _) l

theorem mergeSort_sorted_result (l : List Result) :
    (l.mergeSort resultGe).Pairwise fun a b => strLe b.created_at a.created_at :=
  @List.sorted_mergeSort Result resultGe
    (fun _ _ _ h1 h2 => strLe_trans _ _ _ h2 h1)
    (fun _ _ => strLe_total _ _) l

/-! ### Claim theorems -/

/-- C1: Round-trip persistence: for every entity_type `t`, id `i` and
JSON-serialisable data `d`, after `save_entity t i d` the call
`load_entities t` returns a list containing the pair `(i, d)`, the data
recovered exactly from its blob, and re-saving the same triple is
idempotent on the stored data. -/
theorem C1_save_load_round_trip (t i : String) (d : JValue) (db : DB) :
    (i, d) ∈ load_entities t (save_entity t i d db) ∧
    save_entity t i d (save_entity t i d db) = save_entity t i d db :=
  ⟨mem_load_entities_save t i d db, save_entity_idem t i d db⟩

/-- C2 counterexample: entities are NOT keyed by id and type jointly.
After storing ("agent", "e1", 1) and then saving ("task", "e1", 2), the
upsert (conflict target: the primary key `id` alone) has overwritten the
agent row, so `load_entities "agent"` no longer returns ("e1", 1),
refuting the claimed frame property at this concrete input. -/
theorem C2_counterexample :
    ¬ (("e1", JValue.num 1) ∈ load_entities "agent"
        (save_entity "task" "e1" (JValue.num 2)
          (save_entity "agent" "e1" (JValue.num 1) []))) := by
  have h : load_entities "agent"
      (save_entity "task" "e1" (JValue.num 2)
        (save_entity "agent" "e1" (JValue.num 1) [])) = [] := rfl
  rw [h]
  exact List.not_mem_nil _

/-- C2 amended: entities are keyed by `id` alone.  Saving `(t2, i, d2)`
over a previously stored `(t1, i, d1)` with `t1 ≠ t2` replaces the row:
afterwards no entity listed under `t1` carries the id `i`, and
`load_entities t2` returns `(i, d2)`.  (Loading and deletion do filter by
both id and type, but storage and update conflict on the primary key `id`
only.) -/
theorem C2_amended_single_key (t1 t2 i : String) (d1 d2 : JValue) (db : DB)
    (hne : t1 ≠ t2) :
    (∀ p ∈ load_entities t1 (save_entity t2 i d2 (save_entity t1 i d1 db)),
      p.1 ≠ i) ∧
    (i, d2) ∈ load_entities t2 (save_entity t2 i d2 (save_entity t1 i d1 db)) := by
  constructor
  · intro p hp hpi
    rcases mem_load_entities.mp hp with ⟨r, hr, ht, he⟩
    have hri : r.id = i := (congrArg Prod.fst he).trans hpi
    have hforced := save_entity_id_forces t2 i d2 _ r hr hri
    exact hne (by rw [← ht, hforced.1])
  · exact mem_load_entities_save t2 i d2 _

/-- C2 witness: the amended statement at the concrete overwrite of the
counterexample. -/
theorem C2_amended_witness :
    (∀ p ∈ load_entities "agent"
        (save_entity "task" "e1" (JValue.num 2)
          (save_entity "agent" "e1" (JValue.num 1) [])), p.1 ≠ "e1") ∧
    ("e1", JValue.num 2) ∈ load_entities "task"
        (save_entity "task" "e1" (JValue.num 2)
          (save_entity "agent" "e1" (JValue.num 1) [])) :=
  C2_amended_single_key "agent" "task" "e1" (JValue.num 1) (JValue.num 2) []
    (by decide)

/-- C6: Type selection soundness: every pair returned by
`load_entities t` comes from a stored row whose entity_type column equals
`t`; no row stored under a different type is returned. -/
theorem C6_type_selection (t : String) (db : DB) (p : String × JValue)
    (hp : p ∈ load_entities t db) :
    ∃ r, r ∈ db ∧ r.entity_type = t ∧ r.id = p.1 ∧ r.data = p.2 := by
  rcases mem_load_entities.mp hp with ⟨r, hr, ht, he⟩
  refine ⟨r, hr, ht, ?_, ?_⟩ <;> rw [← he]

/-- C6 witness: the theorem applied to a one-row store. -/
theorem C6_type_selection_witness :
    ∃ r, r ∈ [Row.mk "x" "agent" JValue.null] ∧ r.entity_type = "agent" ∧
      r.id = ("x", JValue.null).1 ∧ r.data = ("x", JValue.null).2 :=
  C6_type_selection "agent" [Row.mk "x" "agent" JValue.null] ("x", JValue.null)
    (List.mem_singleton.mpr rfl)

/-- C7: `initialize_db` ensures the entities table exists, is idempotent,
and leaves an already existing table (and so every stored entity)
unchanged. -/
theorem C7_initialize_db_idempotent (s : Option DB) (db : DB) :
    (initialize_db s).isSome ∧
    initialize_db (initialize_db s) = initialize_db s ∧
    initialize_db (some db) = some db := by
  refine ⟨?_, ?_, rfl⟩ <;> cases s <;> rfl

/-- C8: Delete exactness and frame: `delete_entity t i` removes exactly
the rows matching both `t` and `i`, keeps every other row, and is the
identity (raising no error) when no row matches both, in particular when
an existing id is deleted under the wrong type. -/
theorem C8_delete_exactness (t i : String) (db : DB) :
    (∀ r ∈ delete_entity t i db, r ∈ db ∧ ¬(r.id = i ∧ r.entity_type = t)) ∧
    (∀ r ∈ db, ¬(r.id = i ∧ r.entity_type = t) → r ∈ delete_entity t i db) ∧
    ((∀ r ∈ db, ¬(r.id = i ∧ r.entity_type = t)) → delete_entity t i db = db) := by
  have hpred : ∀ r : Row,
      ((!(r.id == i && r.entity_type == t)) = true) ↔
        ¬(r.id = i ∧ r.entity_type = t) := by
    intro r
    cases h1 : r.id == i <;> cases h2 : r.entity_type == t <;> simp_all
  refine ⟨?_, ?_, ?_⟩
  · intro r hr
    rcases List.mem_filter.mp hr with ⟨h1, h2⟩
    exact ⟨h1, (hpred r).mp h2⟩
  · intro r hr hne
    exact List.mem_filter.mpr ⟨hr, (hpred r).mpr hne⟩
  · intro hall
    apply List.filter_eq_self.mpr
    intro r hr
    exact (hpred r).mpr (hall r hr)

/-- C8 witness: deleting an existing id under the wrong type leaves the
store unchanged. -/
theorem C8_delete_witness :
    delete_entity "task" "x" [Row.mk "x" "agent" JValue.null] =
      [Row.mk "x" "agent" JValue.null] :=
  (C8_delete_exactness "task" "x" [Row.mk "x" "agent" JValue.null]).2.2 (by
    intro r hr
    rw [List.mem_singleton.mp hr]
    decide)

/-- C3: Task-to-agent reference resolution at load time: every stored task
comes back from `load_tasks` with its agent field bound to the loaded agent
whose id equals the saved `agent_id`, and to none when the saved id is null
or no loaded agent carries it. -/
theorem C3_task_agent_resolution (db : DB) (agents : List MyAgent)
    (tk : MyTask) (ts : List MyTask)
    (hrow : ({ id := tk.id, entity_type := "task", data := taskData tk } : Row) ∈ db)
    (hload : load_tasks agents db = some ts) :
    ∃ tk' ∈ ts,
      tk' = { tk with agent := (match tk.agent with
                | some a => dictGet (agentsDict agents) a.id
                | none => none) } ∧
      (tk.agent = none → tk'.agent = none) ∧
      (∀ a, tk.agent = some a →
        (∀ b, tk'.agent = some b → b ∈ agents ∧ b.id = a.id) ∧
        ((∀ b ∈ agents, b.id ≠ a.id) → tk'.agent = none)) := by
  unfold load_tasks at hload
  cases hdec : decodeRows (fun row => decodeTask (agentsDict agents) row.1 row.2)
      (load_entities "task" db) with
  | none => rw [hdec] at hload; cases hload
  | some l =>
    rw [hdec] at hload
    have hts : ts = l.mergeSort taskLe := (Option.some.inj hload).symm
    have hmem : (tk.id, taskData tk) ∈ load_entities "task" db :=
      mem_load_entities.mpr ⟨_, hrow, rfl, rfl⟩
    rcases decodeRows_mem hdec hmem with ⟨x, hxl, hxe⟩
    rw [decodeTask_taskData] at hxe
    cases hxe
    refine ⟨_, ?_, rfl, ?_, ?_⟩
    · rw [hts]
      exact List.mem_mergeSort.mpr hxl
    · intro h
      simp [h]
    · intro a ha
      constructor
      · intro b hb
        have hd : dictGet (agentsDict agents) a.id = some b := by
          simpa [ha] using hb
        exact agentsDict_eq_some hd
      · intro h
        show (match tk.agent with
          | some a => dictGet (agentsDict agents) a.id
          | none => none) = none
        rw [ha]
        exact agentsDict_eq_none h

/-- C3 witness: a store holding one saved task whose saved agent id
resolves to the single loaded agent. -/
theorem C3_task_agent_resolution_witness :
    ∃ tk' ∈ [sampleTask],
      tk' = { sampleTask with agent := (match sampleTask.agent with
                | some a => dictGet (agentsDict [sampleAgent]) a.id
                | none => none) } ∧
      (sampleTask.agent = none → tk'.agent = none) ∧
      (∀ a, sampleTask.agent = some a →
        (∀ b, tk'.agent = some b → b ∈ [sampleAgent] ∧ b.id = a.id) ∧
        ((∀ b ∈ [sampleAgent], b.id ≠ a.id) → tk'.agent = none)) :=
  C3_task_agent_resolution
    [Row.mk sampleTask.id "task" (taskData sampleTask)]
    [sampleAgent] sampleTask [sampleTask]
    (List.mem_singleton.mpr rfl)
    (by simp [load_tasks, load_entities, decodeRows, decodeTask_taskData,
      sampleTask, sampleAgent, agentsDict, dictGet])

/-- C5: Agent-to-tools reference resolution at load time: every stored
agent comes back from `load_agents` with its tools list equal to the
loaded tools matching the saved `tool_ids`, in the saved order, each id
with no matching loaded tool silently omitted; a one-row store holding the
saved agent always loads without error, dangling tool ids included. -/
theorem C5_agent_tools_resolution (db : DB) (tools : List MyTool)
    (a : MyAgent) (l : List MyAgent)
    (hrow : ({ id := a.id, entity_type := "agent", data := agentData a } : Row) ∈ db)
    (hload : load_agents tools db = some l) :
    (∃ a' ∈ l,
      a' = { a with tools :=
               a.tools.filterMap (fun t => dictGet (toolsDict tools) t.tool_id) } ∧
      (∀ t ∈ a'.tools, t ∈ tools)) ∧
    (load_agents tools [Row.mk a.id "agent" (agentData a)]).isSome := by
  constructor
  · unfold load_agents at hload
    cases hdec : decodeRows (fun row => decodeAgent (toolsDict tools) row.1 row.2)
        (load_entities "agent" db) with
    | none => rw [hdec] at hload; cases hload
    | some l0 =>
      rw [hdec] at hload
      have hl : l = l0.mergeSort agentLe := (Option.some.inj hload).symm
      have hmem : (a.id, agentData a) ∈ load_entities "agent" db :=
        mem_load_entities.mpr ⟨_, hrow, rfl, rfl⟩
      rcases decodeRows_mem hdec hmem with ⟨x, hxl, hxe⟩
      rw [decodeAgent_agentData] at hxe
      cases hxe
      rw [resolveIds_map_str] at hxl
      refine ⟨_, ?_, rfl, ?_⟩
      · rw [hl]
        exact List.mem_mergeSort.mpr hxl
      · intro t ht
        rcases List.mem_filterMap.mp ht with ⟨t0, _, hd⟩
        exact (toolsDict_eq_some hd).1
  · rw [load_agents]
    have hone : load_entities "agent" [Row.mk a.id "agent" (agentData a)] =
        [(a.id, agentData a)] := rfl
    rw [hone]
    simp [decodeRows, decodeAgent_agentData]

/-- C5 witness: a one-agent, one-tool store where the saved tool id
resolves to the single loaded tool. -/
theorem C5_agent_tools_resolution_witness :
    (∃ a' ∈ [sampleAgent],
      a' = { sampleAgent with tools :=
               (sampleAgent.tools.filterMap
                 (fun t => dictGet (toolsDict [sampleTool]) t.tool_id)) } ∧
      (∀ t ∈ a'.tools, t ∈ [sampleTool])) ∧
    (load_agents [sampleTool]
      [Row.mk sampleAgent.id "agent" (agentData sampleAgent)]).isSome :=
  C5_agent_tools_resolution
    [Row.mk sampleAgent.id "agent" (agentData sampleAgent)]
    [sampleTool] sampleAgent [sampleAgent]
    (List.mem_singleton.mpr rfl)
    (by simp [load_agents, load_entities, decodeRows, decodeAgent_agentData,
      sampleAgent, sampleTool, toolsDict, dictGet, resolveIds])

/-- C4: Crew reference resolution at load time: every stored crew comes
back from `load_crews` with its agents and tasks lists equal to the loaded
agents and tasks matching the saved `agent_ids` and `task_ids`, in saved
order with unresolved ids silently omitted, and with `manager_agent` bound
to the loaded agent matching the saved `manager_agent_id` or none when it
does not resolve. -/
theorem C4_crew_reference_resolution (db : DB) (agents : List MyAgent)
    (tasks : List MyTask) (c : MyCrew) (cs : List MyCrew)
    (hrow : ({ id := c.id, entity_type := "crew", data := crewData c } : Row) ∈ db)
    (hload : load_crews agents tasks db = some cs) :
    ∃ c' ∈ cs,
      c' = { c with
             agents := c.agents.filterMap
               (fun a => dictGet (agentsDict agents) a.id)
             tasks := c.tasks.filterMap
               (fun t => dictGet (tasksDict tasks) t.id)
             manager_agent := (match c.manager_agent with
               | some a => dictGet (agentsDict agents) a.id
               | none => none) } ∧
      (∀ b ∈ c'.agents, b ∈ agents) ∧
      (∀ t ∈ c'.tasks, t ∈ tasks) ∧
      (c.manager_agent = none → c'.manager_agent = none) ∧
      (∀ a, c.manager_agent = some a →
        (∀ b, c'.manager_agent = some b → b ∈ agents ∧ b.id = a.id) ∧
        ((∀ b ∈ agents, b.id ≠ a.id) → c'.manager_agent = none)) := by
  unfold load_crews at hload
  cases hdec : decodeRows
      (fun row => decodeCrew (agentsDict agents) (tasksDict tasks) row.1 row.2)
      (load_entities "crew" db) with
  | none => rw [hdec] at hload; cases hload
  | some l0 =>
    rw [hdec] at hload
    have hcs : cs = l0.mergeSort crewLe := (Option.some.inj hload).symm
    have hmem : (c.id, crewData c) ∈ load_entities "crew" db :=
      mem_load_entities.mpr ⟨_, hrow, rfl, rfl⟩
    rcases decodeRows_mem hdec hmem with ⟨x, hxl, hxe⟩
    rw [decodeCrew_crewData] at hxe
    cases hxe
    rw [resolveIds_map_str, resolveIds_map_str] at hxl
    refine ⟨_, ?_, rfl, ?_, ?_, ?_, ?_⟩
    · rw [hcs]
      exact List.mem_mergeSort.mpr hxl
    · intro b hb
      rcases List.mem_filterMap.mp hb with ⟨a0, _, hd⟩
      exact (agentsDict_eq_some hd).1
    · intro t ht
      rcases List.mem_filterMap.mp ht with ⟨t0, _, hd⟩
      exact (tasksDict_eq_some hd).1
    · intro h
      simp [h]
    · intro a ha
      constructor
      · intro b hb
        have hd : dictGet (agentsDict agents) a.id = some b := by
          simpa [ha] using hb
        exact agentsDict_eq_some hd
      · intro h
        show (match c.manager_agent with
          | some a => dictGet (agentsDict agents) a.id
          | none => none) = none
        rw [ha]
        exact agentsDict_eq_none h

/-- C4 witness: a store holding one saved crew whose agent, task and
manager references all resolve to the single loaded agent and task. -/
theorem C4_crew_reference_resolution_witness :
    ∃ c' ∈ [sampleCrew],
      c' = { sampleCrew with
             agents := sampleCrew.agents.filterMap
               (fun a => dictGet (agentsDict [sampleAgent]) a.id)
             tasks := sampleCrew.tasks.filterMap
               (fun t => dictGet (tasksDict [sampleTask]) t.id)
             manager_agent := (match sampleCrew.manager_agent with
               | some a => dictGet (agentsDict [sampleAgent]) a.id
               | none => none) } ∧
      (∀ b ∈ c'.agents, b ∈ [sampleAgent]) ∧
      (∀ t ∈ c'.tasks, t ∈ [sampleTask]) ∧
      (sampleCrew.manager_agent = none → c'.manager_agent = none) ∧
      (∀ a, sampleCrew.manager_agent = some a →
        (∀ b, c'.manager_agent = some b → b ∈ [sampleAgent] ∧ b.id = a.id) ∧
        ((∀ b ∈ [sampleAgent], b.id ≠ a.id) → c'.manager_agent = none)) :=
  C4_crew_reference_resolution
    [Row.mk sampleCrew.id "crew" (crewData sampleCrew)]
    [sampleAgent] [sampleTask] sampleCrew [sampleCrew]
    (List.mem_singleton.mpr rfl)
    (by simp [load_crews, load_entities, decodeRows, decodeCrew_crewData,
      sampleCrew, sampleAgent, sampleTask, agentsDict, tasksDict, dictGet,
      resolveIds])

/-- C9: Load ordering invariant: whenever they succeed, `load_agents`,
`load_tasks`, `load_crews` and `load_knowledge_sources` return lists
ascending in `created_at`, and `load_results` returns a list descending in
`created_at`, for every store contents. -/
theorem C9_load_ordering (tools : List MyTool) (agents : List MyAgent)
    (tasks : List MyTask) (db : DB) :
    (∀ l, load_agents tools db = some l →
      l.Pairwise fun a b => strLe a.created_at b.created_at) ∧
    (∀ l, load_tasks agents db = some l →
      l.Pairwise fun a b => strLe a.created_at b.created_at) ∧
    (∀ l, load_crews agents tasks db = some l →
      l.Pairwise fun a b => strLe a.created_at b.created_at) ∧
    (∀ l, load_knowledge_sources db = some l →
      l.Pairwise fun a b => strLe a.created_at b.created_at) ∧
    (∀ l, load_results db = some l →
      l.Pairwise fun a b => strLe b.created_at a.created_at) := by
  refine ⟨?_, ?_, ?_, ?_, ?_⟩
  · intro l h
    unfold load_agents at h
    cases hdec : decodeRows (fun row => decodeAgent (toolsDict tools) row.1 row.2)
        (load_entities "agent" db) with
    | none => rw [hdec] at h; cases h
    | some l0 =>
      rw [hdec] at h
      rw [← Option.some.inj h]
      exact mergeSort_sorted_agent l0
  · intro l h
    unfold load_tasks at h
    cases hdec : decodeRows (fun row => decodeTask (agentsDict agents) row.1 row.2)
        (load_entities "task" db) with
    | none => rw [hdec] at h; cases h
    | some l0 =>
      rw [hdec] at h
      rw [← Option.some.inj h]
      exact mergeSort_sorted_task l0
  · intro l h
    unfold load_crews at h
    cases hdec : decodeRows
        (fun row => decodeCrew (agentsDict agents) (tasksDict tasks) row.1 row.2)
        (load_entities "crew" db) with
    | none => rw [hdec] at h; cases h
    | some l0 =>
      rw [hdec] at h
      rw [← Option.some.inj h]
      exact mergeSort_sorted_crew l0
  · intro l h
    unfold load_knowledge_sources at h
    cases hdec : decodeRows (fun row => decodeKnowledgeSource row.1 row.2)
        (load_entities "knowledge_source" db) with
    | none => rw [hdec] at h; cases h
    | some l0 =>
      rw [hdec] at h
      rw [← Option.some.inj h]
      exact mergeSort_sorted_ks l0
  · intro l h
    unfold load_results at h
    cases hdec : decodeRows (fun row => decodeResult row.1 row.2)
        (load_entities "result" db) with
    | none => rw [hdec] at h; cases h
    | some l0 =>
      rw [hdec] at h
      rw [← Option.some.inj h]
      exact mergeSort_sorted_result l0

/-- C9 witness: the ordering claim instantiated at the empty store, whose
loads all succeed with the empty (sorted) list. -/
theorem C9_load_ordering_witness :
    load_results [] = some [] ∧
    ([] : List Result).Pairwise (fun a b => strLe b.created_at a.created_at) := by
  have h : load_results ([] : DB) = some [] := by
    simp [load_results, load_entities, decodeRows]
  exact ⟨h, (C9_load_ordering [] [] [] []).2.2.2.2 [] h⟩

/-- C10: Export/import round-trip: importing the exported entities back
into the store they came from upserts each of them onto itself, leaving a
well-formed store (primary key: distinct ids) exactly equal to the
original contents. -/
theorem C10_export_import_round_trip (db : DB) (h : WF db) :
    import_from_json (export_to_json db) db = db := by
  apply import_from_json_all_mem h
  intro e he
  rcases List.mem_map.mp he with ⟨r, hr, hre⟩
  cases hre
  exact hr

/-- C10 witness: the round-trip at a concrete two-row store. -/
theorem C10_export_import_witness :
    import_from_json
      (export_to_json
        [Row.mk "x" "agent" JValue.null, Row.mk "y" "task" (JValue.num 1)])
      [Row.mk "x" "agent" JValue.null, Row.mk "y" "task" (JValue.num 1)] =
      [Row.mk "x" "agent" JValue.null, Row.mk "y" "task" (JValue.num 1)] :=
  C10_export_import_round_trip
    [Row.mk "x" "agent" JValue.null, Row.mk "y" "task" (JValue.num 1)]
    (by simp [WF])

end CrewAI
